import Mathlib

/-!
Verification of the audio-analysis pipeline in `priv/python/analyzer.py`
(sound-forge-alchemy). Times and feature values are embedded as exact
rationals; the external librosa feature primitives (RMS means, chroma
centroids, spectral centroids) are passed in as oracle functions, matching
the spec's "external collaborators" boundary. Python `int()` truncation and
`round()` (half-even) are modelled explicitly.
-/

/-- Python `int(q)`: truncation toward zero. -/
def pyInt (q : ℚ) : ℤ :=
  if 0 ≤ q then ⌊q⌋ else ⌈q⌉

/-- Python `round` to an integer: round-half-even on an exact rational. -/
def roundHalfEven (q : ℚ) : ℤ :=
  let f : ℤ := ⌊q⌋
  let r : ℚ := q - f
  if r < 1/2 then f
  else if 1/2 < r then f + 1
  else if f % 2 = 0 then f else f + 1

/-- Python `round(q, d)` on an exact rational. -/
def pyRound (q : ℚ) (d : ℕ) : ℚ :=
  (roundHalfEven (q * 10 ^ d) : ℚ) / 10 ^ d

/-- Dot product of two feature vectors (`np.dot`). -/
def dot (v w : List ℚ) : ℚ :=
  (List.zipWith (· * ·) v w).sum

/-- Squared Euclidean norm of a feature vector; `np.linalg.norm(v) == 0`
is equivalent to `nsq v = 0`. -/
def nsq (v : List ℚ) : ℚ :=
  dot v v

/-- Cosine similarity of two feature vectors, as computed by
`np.dot(v, w) / (np.linalg.norm(v) * np.linalg.norm(w))`. -/
noncomputable def cosSim (v w : List ℚ) : ℝ :=
  ((dot v w : ℚ) : ℝ) / (Real.sqrt ((nsq v : ℚ) : ℝ) * Real.sqrt ((nsq w : ℚ) : ℝ))

/- ------------------------------------------------------------------ -/
/- Bar Grid Builder (`compute_bar_grid`, analyzer.py lines 215-236)    -/
/- ------------------------------------------------------------------ -/

/-- Helper for the Python slice `l[::b]`: keep an element when the skip
counter hits 0 and reset it to `b - 1`. -/
def everyNthAux (b : ℕ) : List ℚ → ℕ → List ℚ
  | [], _ => []
  | x :: xs, 0 => x :: everyNthAux b xs (b - 1)
  | _ :: xs, k + 1 => everyNthAux b xs k

/-- Python slice `l[::b]`: every `b`-th element starting at index 0. -/
def everyNth (l : List ℚ) (b : ℕ) : List ℚ :=
  everyNthAux b l 0

/-- Mean inter-beat interval, `np.mean(np.diff(beat_times))`. -/
def avgBeatDiff (bt : List ℚ) : ℚ :=
  let diffs := (bt.zip bt.tail).map fun p => p.2 - p.1
  diffs.sum / (diffs.length : ℚ)

/-- Embedding of `compute_bar_grid(beat_times, beats_per_bar)`:
`bar_times = beat_times[::beats_per_bar]`; with at least two bar starts,
append `bar_times[-1] + (bar_times[-1] - bar_times[-2])`; with exactly one,
append `bar_times[0] + mean(diff(beat_times)) * beats_per_bar`; with fewer
than two beats, return the input unchanged. -/
def compute_bar_grid (bt : List ℚ) (b : ℕ) : List ℚ :=
  if bt.length < 2 then bt
  else if 2 ≤ (everyNth bt b).length then
    everyNth bt b ++ [((everyNth bt b).getLast?).getD 0 +
      (((everyNth bt b).getLast?).getD 0 -
        (everyNth bt b).getD ((everyNth bt b).length - 2) 0)]
  else if (everyNth bt b).length = 1 then
    everyNth bt b ++ [(everyNth bt b).getD 0 0 + avgBeatDiff bt * (b : ℚ)]
  else everyNth bt b

/-- Gap between the last two entries of a list (0-padded when too short). -/
def lastGap (l : List ℚ) : ℚ :=
  (l.getLast?).getD 0 - (l.dropLast.getLast?).getD 0

/- ------------------------------------------------------------------ -/
/- Structure Segmenter (analyzer.py lines 269-527)                     -/
/- ------------------------------------------------------------------ -/

/-- Segment record produced by `classify_segments`. -/
structure Segment where
  section_type : String
  start_time : ℚ
  end_time : ℚ
  confidence : ℚ
  label : String
  energy_profile : ℚ
  repetition_group : ℕ
deriving DecidableEq, Inhabited

/-- Embedding of `_compute_segment_energy(y, sr, start, end)`; the oracle
`rmsMean s e` stands for the library value `np.mean(librosa.feature.rms(y[s:e]))`
together with its own empty-frame fallback. -/
def compute_segment_energy (sr len_y : ℕ) (rmsMean : ℤ → ℤ → ℚ)
    (start stop : ℚ) : ℚ :=
  let s_start := pyInt (start * (sr : ℚ))
  let s_end := min (pyInt (stop * (sr : ℚ))) (len_y : ℤ)
  if s_end ≤ s_start then 0 else rmsMean s_start s_end

/-- Inner loop of the greedy repetition grouping in `classify_segments`:
for each later index `j`, when still unassigned and with nonzero chroma
norm, join group `g` if cosine similarity with the seed chroma exceeds 0.85. -/
noncomputable def groupInner (ch : List (List ℚ)) (vi : List ℚ) (g : ℕ) :
    List ℕ → List (Option ℕ) → List (Option ℕ)
  | [], groups => groups
  | j :: js, groups =>
      if (groups.getD j none) = none ∧ nsq (ch.getD j []) ≠ 0 ∧
          (0.85 : ℝ) < cosSim vi (ch.getD j []) then
        groupInner ch vi g js (groups.set j (some g))
      else
        groupInner ch vi g js groups

/-- Outer loop of the greedy repetition grouping: each unassigned index
seeds a fresh group; a zero-norm seed skips the inner scan. -/
noncomputable def groupOuter (ch : List (List ℚ)) :
    List ℕ → List (Option ℕ) → ℕ → List (Option ℕ)
  | [], groups, _ => groups
  | i :: is, groups, nxt =>
      if (groups.getD i none).isSome then groupOuter ch is groups nxt
      else if nsq (ch.getD i []) = 0 then
        groupOuter ch is (groups.set i (some nxt)) (nxt + 1)
      else
        groupOuter ch is
          (groupInner ch (ch.getD i []) nxt
            (List.range' (i + 1) (ch.length - (i + 1))) (groups.set i (some nxt)))
          (nxt + 1)

/-- Greedy repetition grouping from `classify_segments` (lines 325-345):
every index ends up assigned, so the trailing `Option.getD 0` never fires. -/
noncomputable def classifyGroups (ch : List (List ℚ)) : List ℕ :=
  (groupOuter ch (List.range ch.length) (List.replicate ch.length none) 0).map
    (fun o => o.getD 0)

/-- Per-segment mean RMS energies of `classify_segments` (lines 302-305). -/
def segEnergies (boundaries : List ℚ) (sr len_y : ℕ)
    (rmsMean : ℤ → ℤ → ℚ) : List ℚ :=
  (List.range (boundaries.length - 1)).map fun i =>
    compute_segment_energy sr len_y rmsMean (boundaries.getD i 0)
      (boundaries.getD (i + 1) 0)

/-- Per-segment chroma centroids of `classify_segments` (lines 314-323):
segments shorter than a quarter second of samples get a zero vector,
otherwise the oracle's `np.mean(chroma_cqt(...))` value. -/
def segChromas (boundaries : List ℚ) (sr len_y : ℕ)
    (chromaOr : ℕ → List ℚ) : List (List ℚ) :=
  (List.range (boundaries.length - 1)).map fun i =>
    let s := pyInt (boundaries.getD i 0 * (sr : ℚ))
    let e := min (pyInt (boundaries.getD (i + 1) 0 * (sr : ℚ))) (len_y : ℤ)
    if e - s < (sr : ℤ) / 4 then List.replicate 12 (0 : ℚ) else chromaOr i

/-- Embedding of `classify_segments(boundaries, y, sr, rec_matrix)`.
The oracles stand for librosa primitives: `rmsMean` for segment RMS means
and `chromaOr i` for segment `i`'s chroma centroid (`np.mean(chroma_cqt)`).
Float literals 0.65, 0.8, 0.4, 0.55, 1.3, 0.7 appear as exact rationals.
The branch order of the section-type chain follows the source exactly:
the chorus test (count >= 2 and e_norm > 0.65) precedes the drop test
(count >= 2 and e_norm > 0.8). -/
noncomputable def classify_segments (boundaries : List ℚ) (sr len_y : ℕ)
    (rmsMean : ℤ → ℤ → ℚ) (chromaOr : ℕ → List ℚ) : List Segment :=
  let n_seg := boundaries.length - 1
  if n_seg = 0 then [] else
  let energies := segEnergies boundaries sr len_y rmsMean
  let maxE0 := (energies.max?).getD 1
  let maxE := if maxE0 = 0 then 1 else maxE0
  let groups := classifyGroups (segChromas boundaries sr len_y chromaOr)
  let maxCnt := ((groups.map fun g => groups.count g).max?).getD 1
  (List.range n_seg).map fun i =>
    let e_norm := energies.getD i 0 / maxE
    let cnt := groups.count (groups.getD i 0)
    let sectionType :=
      if i = 0 then "intro"
      else if i = n_seg - 1 then "outro"
      else if 2 ≤ cnt ∧ (13/20 : ℚ) < e_norm then "chorus"
      else if 2 ≤ cnt ∧ (4/5 : ℚ) < e_norm then "drop"
      else if e_norm < 2/5 then "verse"
      else if 2/5 ≤ e_norm ∧ e_norm ≤ 11/20 then "bridge"
      else if 11/20 < e_norm ∧ e_norm ≤ 13/20 then "pre_chorus"
      else if 0 < i ∧ energies.getD (i - 1) 0 * (13/10) < energies.getD i 0 then
        "build_up"
      else if 0 < i ∧ energies.getD i 0 < energies.getD (i - 1) 0 * (7/10) then
        "breakdown"
      else "verse"
    { section_type := sectionType
      start_time := boundaries.getD i 0
      end_time := boundaries.getD (i + 1) 0
      confidence := pyRound
        (min 1 (1/2 + (3/10) * ((cnt : ℚ) / (maxCnt : ℚ)) + (1/5) * e_norm)) 4
      label := sectionType ++ "_" ++ toString (i + 1)
      energy_profile := pyRound e_norm 4
      repetition_group := groups.getD i 0 }

/-- Sorted deduplication of a rational list, `np.unique`. -/
def npUnique (l : List ℚ) : List ℚ :=
  l.toFinset.sort (· ≤ ·)

/-- Embedding of the boundary post-processing in `extract_structure`
(lines 501-512): force the first boundary to 0 (prepend when > 0.5, else
overwrite index 0), force the last to `duration` (append when
< duration - 0.5, else overwrite the last entry), then `np.unique`. -/
def fixBoundaries (bs : List ℚ) (duration : ℚ) : List ℚ :=
  match bs with
  | [] => []
  | b0 :: rest =>
      let bs1 := if 1/2 < b0 then 0 :: b0 :: rest else 0 :: rest
      let bs2 := if (bs1.getLast?).getD 0 < duration - 1/2
        then bs1 ++ [duration]
        else bs1.dropLast ++ [duration]
      npUnique bs2

/-- Whole-track intro segment returned by the `extract_structure`
short-circuit path (duration < 30s or fewer than 4 beats). -/
def singleIntroSegment (duration : ℚ) : Segment :=
  { section_type := "intro", start_time := 0, end_time := duration,
    confidence := 1/2, label := "intro_1", energy_profile := 1,
    repetition_group := 0 }

/-- Segment-producing core of `extract_structure(y, sr, beat_times)`.
The parameter `raw` stands for the librosa/scipy boundary times fed into
the post-processing step: every in-source detection path (novelty,
clustering, uniform split) yields a nonempty list of frame-derived times
inside [0, duration]. -/
noncomputable def extract_structure_segments (duration : ℚ) (nBeats : ℕ)
    (raw : List ℚ) (sr len_y : ℕ) (rmsMean : ℤ → ℤ → ℚ)
    (chromaOr : ℕ → List ℚ) : List Segment :=
  if duration < 30 ∨ nBeats < 4 then [singleIntroSegment duration]
  else classify_segments (fixBoundaries raw duration) sr len_y rmsMean chromaOr

/-- Chroma centroid used in concrete repetition-grouping evaluations. -/
def chromaV : List ℚ := [1, 0, 0, 0, 0, 0, 0, 0, 0, 0, 0, 0]

/- ------------------------------------------------------------------ -/
/- Arrangement Marker Detector: drops (analyzer.py lines 843-901)      -/
/- ------------------------------------------------------------------ -/

/-- Drop marker record (marker dict plus its metadata payload). -/
structure Marker where
  marker_type : String
  position_ms : ℤ
  position_end_ms : Option ℤ
  description : String
  intensity : ℚ
  dip_rms : ℚ
  spike_rms : ℚ
  mean_rms : ℚ
deriving DecidableEq, Inhabited

/-- Marker-producing core of `detect_drops(y, sr, window_sec)`
(lines 868-901), taking the windowed RMS series and the window start times
computed by the preceding RMS loop. A dip (RMS < 0.3 x mean) emits one
marker at the first of the next two windows whose RMS exceeds 1.5 x mean;
with no such spike the dip emits nothing. -/
def detect_drops_core (rms : List ℚ) (times : List ℚ) : List Marker :=
  if rms.length < 4 then [] else
  let meanRms := rms.sum / (rms.length : ℚ)
  if meanRms = 0 then [] else
  (List.range' 1 (rms.length - 3)).filterMap fun i =>
    if rms.getD i 0 < 3/10 * meanRms then
      match (List.range' 1 (min 3 (rms.length - i) - 1)).find?
          (fun j => decide ((3/2 : ℚ) * meanRms < rms.getD (i + j) 0)) with
      | some j =>
          some { marker_type := "drop"
                 position_ms := pyInt (times.getD i 0 * 1000)
                 position_end_ms := some (pyInt (times.getD (i + j) 0 * 1000))
                 description := "Drop detected (energy dip then spike)"
                 intensity := pyRound
                   (min 1 ((rms.getD (i + j) 0 / meanRms
                     - rms.getD i 0 / meanRms) / 2)) 4
                 dip_rms := pyRound (rms.getD i 0) 6
                 spike_rms := pyRound (rms.getD (i + j) 0) 6
                 mean_rms := pyRound meanRms 6 }
      | none => none
    else none

/- ------------------------------------------------------------------ -/
/- Loop Point Finder (analyzer.py lines 599-687)                       -/
/- ------------------------------------------------------------------ -/

/-- Loop candidate record. -/
structure LoopCandidate where
  loop_start_ms : ℤ
  loop_end_ms : ℤ
  loop_beats : ℕ
  loop_bars : ℕ
  quality_score : ℚ
  section_label : String
  bar_aligned : Bool
  recommended : Bool
deriving DecidableEq, Inhabited

/-- Uniqueness key (startMs, bars) of a loop candidate. -/
def LoopCandidate.key (c : LoopCandidate) : ℤ × ℕ :=
  (c.loop_start_ms, c.loop_bars)

/-- Embedding of `find_section_for_time(segments, t)` (lines 599-606):
the first segment with start <= t < end wins; otherwise the last
segment's label; for an empty list, "unknown". -/
def find_section_for_time (segments : List Segment) (t : ℚ) : String :=
  match segments.find? (fun s => decide (s.start_time ≤ t ∧ t < s.end_time)) with
  | some s => s.label
  | none =>
      match segments.getLast? with
      | some s => s.label
      | none => "unknown"

/-- Candidate generation loop of `extract_loop_points` (lines 641-664).
The oracle `quality start end` stands for `compute_loop_quality`. The
in-source `if end_idx >= len(bar_times): break` guard is unreachable
(the range bound already gives `i + bar_len <= len - 1`) and is omitted. -/
def gen_loop_candidates (bar_times : List ℚ) (segments : List Segment)
    (beats_per_bar : ℕ) (quality : ℚ → ℚ → ℚ) : List LoopCandidate :=
  [1, 2, 4, 8, 16].flatMap fun bar_len =>
    (List.range (bar_times.length - bar_len)).filterMap fun i =>
      let start_t := bar_times.getD i 0
      let end_t := bar_times.getD (i + bar_len) 0
      if end_t - start_t < 1/2 then none
      else some
        { loop_start_ms := pyInt (start_t * 1000)
          loop_end_ms := pyInt (end_t * 1000)
          loop_beats := bar_len * beats_per_bar
          loop_bars := bar_len
          quality_score := pyRound (quality start_t end_t) 4
          section_label := find_section_for_time segments start_t
          bar_aligned := true
          recommended := false }

/-- Comparator of `passing.sort(key=..., reverse=True)`: descending by
quality score. -/
def scoreDesc (a b : LoopCandidate) : Bool :=
  decide (b.quality_score ≤ a.quality_score)

/-- Filter to score >= 0.6 and stable descending sort (lines 666-668). -/
def loopPassingSorted (cands : List LoopCandidate) : List LoopCandidate :=
  (cands.filter fun c => decide ((3/5 : ℚ) ≤ c.quality_score)).mergeSort scoreDesc

/-- Deduplication keeping the first entry per (startMs, bars) key, with
the accumulated `seen` set (lines 670-677). -/
def dedupByKey : List LoopCandidate → List (ℤ × ℕ) → List LoopCandidate
  | [], _ => []
  | c :: rest, seen =>
      if c.key ∈ seen then dedupByKey rest seen
      else c :: dedupByKey rest (c.key :: seen)

/-- Embedding of `extract_loop_points(...)` as the pair
(recommended, all). In the source the first five deduped dicts are mutated
in place with `recommended = True`, so the flagged objects appear in both
returned lists. -/
def extract_loop_points (bar_times : List ℚ) (segments : List Segment)
    (beats_per_bar : ℕ) (quality : ℚ → ℚ → ℚ) :
    List LoopCandidate × List LoopCandidate :=
  if bar_times.length < 2 then ([], [])
  else
    let deduped := dedupByKey (loopPassingSorted
      (gen_loop_candidates bar_times segments beats_per_bar quality)) []
    let recommended := (deduped.take 5).map fun c => { c with recommended := true }
    (recommended, recommended ++ deduped.drop 5)

/- ------------------------------------------------------------------ -/
/- Auto-Cue Composer (analyzer.py lines 1168-1227)                     -/
/- ------------------------------------------------------------------ -/

/-- Auto-cue record. -/
structure AutoCue where
  position_ms : ℤ
  label : String
  cue_type : String
  color : String
  confidence : ℚ
deriving DecidableEq, Inhabited

/-- Greedy 500 ms merge loop of the auto-cue stage (lines 1219-1225);
`acc` holds the deduped list in reverse (head = most recently kept cue).
A cue within 500 ms of the last kept cue replaces it only when strictly
more confident; otherwise it is dropped. -/
def mergeCuesAux : List AutoCue → List AutoCue → List AutoCue
  | acc, [] => acc.reverse
  | [], cue :: rest => mergeCuesAux [cue] rest
  | last :: acc, cue :: rest =>
      if |cue.position_ms - last.position_ms| < 500 then
        if last.confidence < cue.confidence then
          mergeCuesAux (cue :: acc) rest
        else
          mergeCuesAux (last :: acc) rest
      else
        mergeCuesAux (cue :: last :: acc) rest

/-- Auto-cue deduplication (lines 1217-1227): sort by position, then merge
any cue within 500 ms of the previously kept cue. -/
def dedupe_cues (cues : List AutoCue) : List AutoCue :=
  mergeCuesAux []
    (cues.mergeSort fun a b => decide (a.position_ms ≤ b.position_ms))

/-- Numeric-key lookup on a segment record, as Python's `seg.get(key)`
sees the segment dicts built by `classify_segments`: only the keys the
segment actually carries resolve; any other key yields `none`. -/
def segGetNum (s : Segment) : String → Option ℚ
  | "start_time" => some s.start_time
  | "end_time" => some s.end_time
  | "confidence" => some s.confidence
  | "energy_profile" => some s.energy_profile
  | "repetition_group" => some (s.repetition_group : ℚ)
  | _ => none

/-- Fixed cueType -> color palette of the auto-cue stage (lines 1174-1185). -/
def cue_color_map : List (String × String) :=
  [("key_change", "#9B59B6"), ("energy_rise", "#E74C3C"),
   ("energy_drop", "#3498DB"), ("drop", "#F39C12"),
   ("build_up", "#2ECC71"), ("intro", "#1ABC9C"),
   ("verse", "#2980B9"), ("chorus", "#E91E63"),
   ("bridge", "#FF9800"), ("outro", "#607D8B")]

/-- Segment-boundary cue of the auto-cue stage (lines 1205-1215). The
position reads `seg.get("start_ms", seg.get("start", 0) * 1000)`, but the
segment dicts carry neither "start_ms" nor "start" (their key is
"start_time"), so both lookups fall back to the defaults and the position
is always `int(0 * 1000) = 0`. -/
def cueOfSegment (s : Segment) : AutoCue :=
  let seg_type := s.label.toLower
  { position_ms := pyInt ((segGetNum s "start_ms").getD
      (((segGetNum s "start").getD 0) * 1000))
    label := s.label ++ " start"
    cue_type := seg_type
    color := ((cue_color_map.find? fun p =>
      p.1 == seg_type).map Prod.snd).getD "#95A5A6"
    confidence := pyRound s.confidence 4 }

/- ------------------------------------------------------------------ -/
/- Loop quality sub-scores (analyzer.py lines 534-589)                 -/
/- ------------------------------------------------------------------ -/

/-- Samplewise boundary window of the loop sub-scores:
`(max(0, int(t*sr) - hw), min(len(y), int(t*sr) + hw))` with
`hw = int(window * sr / 2)`. -/
def simWindow (sr len_y : ℕ) (t window : ℚ) : ℤ × ℤ :=
  let hw := pyInt (window * (sr : ℚ) / 2)
  (max 0 (pyInt (t * (sr : ℚ)) - hw),
   min ((len_y : ℤ)) (pyInt (t * (sr : ℚ)) + hw))

/-- Degenerate-window guard of the sub-scores: either boundary window
holds fewer than `sr // 8` samples. -/
def shortPair (sr len_y : ℕ) (t1 t2 window : ℚ) : Prop :=
  (simWindow sr len_y t1 window).2 - (simWindow sr len_y t1 window).1
      < (sr : ℤ) / 8
  ∨ (simWindow sr len_y t2 window).2 - (simWindow sr len_y t2 window).1
      < (sr : ℤ) / 8

instance shortPairDec (sr len_y : ℕ) (t1 t2 window : ℚ) :
    Decidable (shortPair sr len_y t1 t2 window) :=
  inferInstanceAs (Decidable (_ ∨ _))

/-- Embedding of `_chroma_similarity(y, sr, t1, t2, window)`; the oracle
`chromaMean s e` stands for `np.mean(chroma_cqt(y[s:e]), axis=1)`. A short
window yields 0; a zero norm on either side yields 0; otherwise the
cosine similarity of the two chroma centroids. -/
noncomputable def chroma_similarity (sr len_y : ℕ)
    (chromaMean : ℤ → ℤ → List ℚ) (t1 t2 window : ℚ) : ℝ :=
  if shortPair sr len_y t1 t2 window then 0
  else
    let c1 := chromaMean (simWindow sr len_y t1 window).1
      (simWindow sr len_y t1 window).2
    let c2 := chromaMean (simWindow sr len_y t2 window).1
      (simWindow sr len_y t2 window).2
    if nsq c1 = 0 ∨ nsq c2 = 0 then 0
    else ((dot c1 c2 : ℚ) : ℝ) /
      (Real.sqrt ((nsq c1 : ℚ) : ℝ) * Real.sqrt ((nsq c2 : ℚ) : ℝ))

/-- Embedding of `_energy_match(y, sr, t1, t2, window)`; the oracle
`rmsMean s e` stands for `np.mean(librosa.feature.rms(y[s:e]))`. A short
window yields 0; equal zero energies yield a perfect 1.0. -/
def energy_match (sr len_y : ℕ) (rmsMean : ℤ → ℤ → ℚ)
    (t1 t2 window : ℚ) : ℚ :=
  if shortPair sr len_y t1 t2 window then 0
  else
    let rms1 := rmsMean (simWindow sr len_y t1 window).1
      (simWindow sr len_y t1 window).2
    let rms2 := rmsMean (simWindow sr len_y t2 window).1
      (simWindow sr len_y t2 window).2
    if max rms1 rms2 = 0 then 1
    else 1 - |rms1 - rms2| / max rms1 rms2

/-- Embedding of `_spectral_match(y, sr, t1, t2, window)`; the oracle
`scMean s e` stands for `np.mean(spectral_centroid(y[s:e]))`. A short
window yields 0; equal zero centroids yield a perfect 1.0. -/
def spectral_match (sr len_y : ℕ) (scMean : ℤ → ℤ → ℚ)
    (t1 t2 window : ℚ) : ℚ :=
  if shortPair sr len_y t1 t2 window then 0
  else
    let sc1 := scMean (simWindow sr len_y t1 window).1
      (simWindow sr len_y t1 window).2
    let sc2 := scMean (simWindow sr len_y t2 window).1
      (simWindow sr len_y t2 window).2
    if max sc1 sc2 = 0 then 1
    else 1 - |sc1 - sc2| / max sc1 sc2

/- Theorems and supporting lemmas. -/

lemma nsq_nonneg (v : List ℚ) : 0 ≤ nsq v := by
  unfold nsq dot
  induction v with
  | nil => simp
  | cons x xs ih =>
      simp only [List.zipWith_cons_cons, List.sum_cons]
      have hx : 0 ≤ x * x := mul_self_nonneg x
      linarith

lemma cosSim_self (v : List ℚ) (h : nsq v ≠ 0) : cosSim v v = 1 := by
  have hnn : (0 : ℝ) ≤ ((nsq v : ℚ) : ℝ) := by exact_mod_cast nsq_nonneg v
  have hne : ((nsq v : ℚ) : ℝ) ≠ 0 := by exact_mod_cast h
  unfold cosSim
  rw [show dot v v = nsq v from rfl, Real.mul_self_sqrt hnn, div_self hne]

lemma everyNthAux_sublist (b : ℕ) :
    ∀ (l : List ℚ) (k : ℕ), (everyNthAux b l k).Sublist l := by
  intro l
  induction l with
  | nil => intro k; rw [everyNthAux]
  | cons x xs ih =>
      intro k
      cases k with
      | zero =>
          rw [everyNthAux]
          exact List.Sublist.cons₂ x (ih (b - 1))
      | succ k =>
          rw [everyNthAux]
          exact (ih k).cons x

lemma everyNth_sublist (l : List ℚ) (b : ℕ) : (everyNth l b).Sublist l :=
  everyNthAux_sublist b l 0

lemma everyNthAux_length (b : ℕ) (hb : 1 ≤ b) :
    ∀ (l : List ℚ) (k : ℕ),
      (everyNthAux b l k).length = (l.length - k + b - 1) / b := by
  intro l
  induction l with
  | nil =>
      intro k
      rw [everyNthAux]
      simp only [List.length_nil, Nat.zero_sub]
      exact (Nat.div_eq_of_lt (by omega)).symm
  | cons x xs ih =>
      intro k
      cases k with
      | zero =>
          rw [everyNthAux]
          simp only [List.length_cons, Nat.sub_zero]
          rw [ih (b - 1)]
          rcases le_or_lt (b - 1) xs.length with hle | hlt
          · have h1 : xs.length - (b - 1) + b - 1 = xs.length := by omega
            rw [h1]
            have h2 : xs.length + 1 + b - 1 = xs.length + b := by omega
            rw [h2, Nat.add_div_right _ (by omega : 0 < b)]
          · have h1 : xs.length - (b - 1) = 0 := by omega
            rw [h1]
            have h2 : (0 + b - 1) / b = 0 := Nat.div_eq_of_lt (by omega)
            rw [h2]
            have h3 : xs.length + 1 + b - 1 = xs.length + b := by omega
            rw [h3, Nat.add_div_right _ (by omega : 0 < b)]
            have h4 : xs.length / b = 0 := Nat.div_eq_of_lt (by omega)
            omega
      | succ k =>
          rw [everyNthAux]
          rw [ih k]
          congr 2
          simp only [List.length_cons]
          omega

lemma everyNth_length (l : List ℚ) (b : ℕ) (hb : 1 ≤ b) :
    (everyNth l b).length = (l.length + b - 1) / b := by
  rw [everyNth, everyNthAux_length b hb l 0, Nat.sub_zero]

lemma getD_lt_getD_of_pairwise {l : List ℚ} (h : l.Pairwise (· < ·)) {i j : ℕ}
    (hij : i < j) (hj : j < l.length) : l.getD i 0 < l.getD j 0 := by
  rw [List.getD_eq_getElem?_getD, List.getD_eq_getElem?_getD,
    List.getElem?_eq_getElem (lt_trans hij hj), List.getElem?_eq_getElem hj,
    Option.getD_some, Option.getD_some]
  exact List.pairwise_iff_getElem.mp h i j (lt_trans hij hj) hj hij

lemma getLast_getD_eq (l : List ℚ) :
    (l.getLast?).getD 0 = l.getD (l.length - 1) 0 := by
  rw [List.getLast?_eq_getElem?, List.getD_eq_getElem?_getD]

lemma mem_le_getLast {l : List ℚ} (h : l.Pairwise (· < ·)) {a : ℚ} (ha : a ∈ l) :
    a ≤ (l.getLast?).getD 0 := by
  obtain ⟨i, hi, rfl⟩ := List.mem_iff_getElem.mp ha
  have hlen : 0 < l.length := lt_of_le_of_lt (Nat.zero_le _) hi
  rw [getLast_getD_eq, List.getD_eq_getElem?_getD,
    List.getElem?_eq_getElem (by omega : l.length - 1 < l.length), Option.getD_some]
  rcases Nat.lt_or_ge i (l.length - 1) with hlt | hge
  · exact le_of_lt (List.pairwise_iff_getElem.mp h i (l.length - 1) hi (by omega) hlt)
  · have hieq : i = l.length - 1 := by omega
    subst hieq
    exact le_refl _

lemma dropLast_getLast_getD {l : List ℚ} (h2 : 2 ≤ l.length) :
    (l.dropLast.getLast?).getD 0 = l.getD (l.length - 2) 0 := by
  rw [getLast_getD_eq, List.length_dropLast,
    List.getD_eq_getElem?_getD, List.getD_eq_getElem?_getD,
    List.getElem?_eq_getElem (by rw [List.length_dropLast]; omega :
      l.length - 1 - 1 < l.dropLast.length),
    List.getElem?_eq_getElem (by omega : l.length - 2 < l.length),
    Option.getD_some, Option.getD_some, List.getElem_dropLast]
  congr 1

lemma avgBeatDiff_pos {bt : List ℚ} (hmono : bt.Pairwise (· < ·))
    (hn : 2 ≤ bt.length) : 0 < avgBeatDiff bt := by
  unfold avgBeatDiff
  have hlen : (bt.zip bt.tail).length = bt.length - 1 := by
    rw [List.length_zip, List.length_tail]
    exact min_eq_right (by omega)
  apply div_pos
  · apply List.sum_pos
    · intro x hx
      obtain ⟨p, hp, rfl⟩ := List.mem_map.mp hx
      obtain ⟨i, hi, rfl⟩ := List.mem_iff_getElem.mp hp
      have hi1 : i + 1 < bt.length := by
        rw [hlen] at hi
        omega
      simp only [List.getElem_zip, List.getElem_tail]
      have := List.pairwise_iff_getElem.mp hmono i (i + 1) (by omega) hi1 (by omega)
      linarith
    · intro hemp
      apply congrArg List.length at hemp
      rw [List.length_map, hlen] at hemp
      simp only [List.length_nil] at hemp
      omega
  · rw [List.length_map, hlen]
    have : (0 : ℕ) < bt.length - 1 := by omega
    exact_mod_cast this

/-- Claim C3 (amended): for a strictly increasing beat list with n >= 2
entries and beatsPerBar b >= 1, `compute_bar_grid` returns a strictly
increasing list of length ceil(n/b) + 1 = (n + b - 1) / b + 1 (which equals
floor(n/b) + 1 only when b divides n), and when b < n the last gap equals
the second-to-last gap. -/
theorem compute_bar_grid_spec (bt : List ℚ) (b : ℕ) (hb : 1 ≤ b)
    (hn : 2 ≤ bt.length) (hmono : bt.Pairwise (· < ·)) :
    (compute_bar_grid bt b).length = (bt.length + b - 1) / b + 1
    ∧ (compute_bar_grid bt b).Pairwise (· < ·)
    ∧ (b < bt.length →
        lastGap (compute_bar_grid bt b) = lastGap (compute_bar_grid bt b).dropLast) := by
  have hnotlt : ¬ bt.length < 2 := by omega
  have hbarlen : (everyNth bt b).length = (bt.length + b - 1) / b :=
    everyNth_length bt b hb
  have hbarmono : (everyNth bt b).Pairwise (· < ·) :=
    List.Pairwise.sublist (everyNth_sublist bt b) hmono
  have hbar1 : 1 ≤ (everyNth bt b).length := by
    rw [hbarlen]
    rw [Nat.one_le_div_iff (by omega)]
    omega
  by_cases h2 : 2 ≤ (everyNth bt b).length
  · -- at least two bar starts: extrapolate the last bar duration
    have hgrid : compute_bar_grid bt b = everyNth bt b ++
        [((everyNth bt b).getLast?).getD 0 +
          (((everyNth bt b).getLast?).getD 0 -
            (everyNth bt b).getD ((everyNth bt b).length - 2) 0)] := by
      rw [compute_bar_grid, if_neg hnotlt, if_pos h2]
    have hpen : (everyNth bt b).getD ((everyNth bt b).length - 2) 0 <
        ((everyNth bt b).getLast?).getD 0 := by
      rw [getLast_getD_eq]
      exact getD_lt_getD_of_pairwise hbarmono (by omega) (by omega)
    refine ⟨?_, ?_, ?_⟩
    · rw [hgrid, List.length_append, List.length_singleton, hbarlen]
    · rw [hgrid, List.pairwise_append]
      refine ⟨hbarmono, List.pairwise_singleton _ _, ?_⟩
      intro a ha c hc
      rw [List.mem_singleton] at hc
      subst hc
      have hle := mem_le_getLast hbarmono ha
      linarith
    · intro _
      rw [hgrid]
      unfold lastGap
      rw [List.getLast?_concat, List.dropLast_concat, Option.getD_some,
        dropLast_getLast_getD h2]
      ring
  · -- exactly one bar start: extrapolate from the mean beat interval
    have h1 : (everyNth bt b).length = 1 := by omega
    have hgrid : compute_bar_grid bt b = everyNth bt b ++
        [(everyNth bt b).getD 0 0 + avgBeatDiff bt * (b : ℚ)] := by
      rw [compute_bar_grid, if_neg hnotlt, if_neg h2, if_pos h1]
    have havg : 0 < avgBeatDiff bt * (b : ℚ) := by
      apply mul_pos (avgBeatDiff_pos hmono hn)
      exact_mod_cast (by omega : 0 < b)
    refine ⟨?_, ?_, ?_⟩
    · rw [hgrid, List.length_append, List.length_singleton, hbarlen]
    · rw [hgrid, List.pairwise_append]
      refine ⟨hbarmono, List.pairwise_singleton _ _, ?_⟩
      intro a ha c hc
      rw [List.mem_singleton] at hc
      subst hc
      obtain ⟨i, hi, rfl⟩ := List.mem_iff_getElem.mp ha
      have hi0 : i = 0 := by omega
      subst hi0
      have : (everyNth bt b)[0] = (everyNth bt b).getD 0 0 := by
        rw [List.getD_eq_getElem?_getD, List.getElem?_eq_getElem hi, Option.getD_some]
      rw [this]
      linarith
    · intro hbn
      exfalso
      have : 2 ≤ (bt.length + b - 1) / b := by
        rw [Nat.le_div_iff_mul_le (by omega : 0 < b)]
        omega
      omega

/-- Claim C3 counterexample: for the strictly increasing beat list
[0,1,2,3,4] (n = 5) with beatsPerBar 4, the grid has length 3, not
floor(5/4) + 1 = 2 as the claim states. -/
theorem compute_bar_grid_length_counterexample :
    ([(0 : ℚ), 1, 2, 3, 4].Pairwise (· < ·)) ∧ 1 ≤ 4 ∧
    2 ≤ ([(0 : ℚ), 1, 2, 3, 4]).length ∧
    (compute_bar_grid [0, 1, 2, 3, 4] 4).length = 3 ∧
    (compute_bar_grid [0, 1, 2, 3, 4] 4).length ≠ (5 : ℕ) / 4 + 1 := by
  refine ⟨by decide, by decide, by decide, ?_, ?_⟩ <;> decide

/-- Claim C3 witness: eight strictly increasing beats with beatsPerBar 4,
instantiating the amended theorem. -/
theorem compute_bar_grid_spec_witness :
    (compute_bar_grid [0, 1, 2, 3, 4, 5, 6, 7] 4).length = (8 + 4 - 1) / 4 + 1
    ∧ (compute_bar_grid [0, 1, 2, 3, 4, 5, 6, 7] 4).Pairwise (· < ·)
    ∧ lastGap (compute_bar_grid [0, 1, 2, 3, 4, 5, 6, 7] 4)
        = lastGap (compute_bar_grid [0, 1, 2, 3, 4, 5, 6, 7] 4).dropLast := by
  obtain ⟨h1, h2, h3⟩ := compute_bar_grid_spec [0, 1, 2, 3, 4, 5, 6, 7] 4
    (by decide) (by decide) (by decide)
  exact ⟨h1, h2, h3 (by decide)⟩

lemma npUnique_pairwise (l : List ℚ) : (npUnique l).Pairwise (· < ·) :=
  Finset.sort_sorted_lt _

lemma mem_npUnique {l : List ℚ} {x : ℚ} : x ∈ npUnique l ↔ x ∈ l := by
  rw [npUnique, Finset.mem_sort, List.mem_toFinset]

lemma getD_mem {l : List ℚ} {i : ℕ} (hi : i < l.length) : l.getD i 0 ∈ l := by
  rw [List.getD_eq_getElem?_getD, List.getElem?_eq_getElem hi, Option.getD_some]
  exact List.getElem_mem hi

lemma getD_zero_le_mem {l : List ℚ} (h : l.Pairwise (· < ·)) {a : ℚ}
    (ha : a ∈ l) : l.getD 0 0 ≤ a := by
  obtain ⟨i, hi, rfl⟩ := List.mem_iff_getElem.mp ha
  have h0 : 0 < l.length := lt_of_le_of_lt (Nat.zero_le _) hi
  rw [List.getD_eq_getElem?_getD, List.getElem?_eq_getElem h0, Option.getD_some]
  rcases Nat.eq_zero_or_pos i with hi0 | hipos
  · subst hi0
    exact le_refl _
  · exact le_of_lt (List.pairwise_iff_getElem.mp h 0 i h0 hi hipos)

lemma sorted_head_last {u : List ℚ} {d : ℚ} (hu : u.Pairwise (· < ·))
    (h0 : (0 : ℚ) ∈ u) (hd : d ∈ u) (hbound : ∀ x ∈ u, 0 ≤ x ∧ x ≤ d)
    (hdpos : 0 < d) :
    2 ≤ u.length ∧ u.getD 0 0 = 0 ∧ u.getD (u.length - 1) 0 = d := by
  have hne : u ≠ [] := by
    intro he
    rw [he] at h0
    exact absurd h0 (List.not_mem_nil 0)
  have hlen : 0 < u.length := List.length_pos.mpr hne
  have hhead : u.getD 0 0 = 0 := by
    have h1 : u.getD 0 0 ≤ 0 := getD_zero_le_mem hu h0
    have h2 : 0 ≤ u.getD 0 0 := (hbound _ (getD_mem hlen)).1
    linarith
  have hlast : u.getD (u.length - 1) 0 = d := by
    have h1 : d ≤ (u.getLast?).getD 0 := mem_le_getLast hu hd
    rw [getLast_getD_eq] at h1
    have h2 : u.getD (u.length - 1) 0 ≤ d :=
      (hbound _ (getD_mem (by omega))).2
    linarith
  refine ⟨?_, hhead, hlast⟩
  by_contra hle
  have h1 : u.length = 1 := by omega
  rw [h1] at hlast
  simp only [Nat.sub_self] at hlast
  rw [hhead] at hlast
  linarith

lemma fixBoundaries_spec {bs : List ℚ} {duration : ℚ} (hbs : bs ≠ [])
    (hmem : ∀ t ∈ bs, 0 ≤ t ∧ t ≤ duration) (hdur : 30 ≤ duration) :
    (fixBoundaries bs duration).Pairwise (· < ·)
    ∧ (0 : ℚ) ∈ fixBoundaries bs duration
    ∧ duration ∈ fixBoundaries bs duration
    ∧ ∀ x ∈ fixBoundaries bs duration, 0 ≤ x ∧ x ≤ duration := by
  match bs, hbs with
  | b0 :: rest, _ =>
    rw [fixBoundaries]
    refine ⟨npUnique_pairwise _, ?_⟩
    set bs1 := if 1/2 < b0 then 0 :: b0 :: rest else 0 :: rest with hbs1
    have hbs1_head : ∃ r1, bs1 = 0 :: r1 := by
      rw [hbs1]
      by_cases hc : 1/2 < b0
      · exact ⟨b0 :: rest, if_pos hc⟩
      · exact ⟨rest, if_neg hc⟩
    have hbs1_sub : ∀ x ∈ bs1, x = 0 ∨ x ∈ b0 :: rest := by
      intro x hx
      rw [hbs1] at hx
      by_cases hc : 1/2 < b0
      · rw [if_pos hc] at hx
        rcases List.mem_cons.mp hx with h | h
        · exact Or.inl h
        · exact Or.inr h
      · rw [if_neg hc] at hx
        rcases List.mem_cons.mp hx with h | h
        · exact Or.inl h
        · exact Or.inr (List.mem_cons_of_mem _ h)
    obtain ⟨r1, hr1⟩ := hbs1_head
    set bs2 := if (bs1.getLast?).getD 0 < duration - 1/2
      then bs1 ++ [duration]
      else bs1.dropLast ++ [duration] with hbs2
    have hdmem : duration ∈ bs2 := by
      rw [hbs2]
      by_cases hc : (bs1.getLast?).getD 0 < duration - 1/2
      · rw [if_pos hc]
        exact List.mem_append_right _ (List.mem_singleton_self _)
      · rw [if_neg hc]
        exact List.mem_append_right _ (List.mem_singleton_self _)
    have h0mem : (0 : ℚ) ∈ bs2 := by
      rw [hbs2]
      by_cases hc : (bs1.getLast?).getD 0 < duration - 1/2
      · rw [if_pos hc]
        exact List.mem_append_left _ (by rw [hr1]; exact List.mem_cons_self _ _)
      · rw [if_neg hc]
        apply List.mem_append_left
        match r1, hr1 with
        | [], hr1 =>
            exfalso
            apply hc
            rw [hr1]
            simp only [List.getLast?_singleton, Option.getD_some]
            linarith
        | y :: t, hr1 =>
            rw [hr1, List.dropLast_cons₂]
            exact List.mem_cons_self _ _
    have hsub : ∀ x ∈ bs2, 0 ≤ x ∧ x ≤ duration := by
      intro x hx
      rw [hbs2] at hx
      have hxcase : x ∈ bs1 ∨ x = duration := by
        by_cases hc : (bs1.getLast?).getD 0 < duration - 1/2
        · rw [if_pos hc] at hx
          rcases List.mem_append.mp hx with h | h
          · exact Or.inl h
          · exact Or.inr (List.mem_singleton.mp h)
        · rw [if_neg hc] at hx
          rcases List.mem_append.mp hx with h | h
          · exact Or.inl ((List.dropLast_sublist bs1).subset h)
          · exact Or.inr (List.mem_singleton.mp h)
      rcases hxcase with h | h
      · rcases hbs1_sub x h with h0 | hmem2
        · subst h0
          constructor
          · exact le_refl 0
          · linarith
        · exact hmem x hmem2
      · subst h
        constructor
        · linarith
        · exact le_refl _
    exact ⟨mem_npUnique.mpr h0mem, mem_npUnique.mpr hdmem,
      fun x hx => hsub x (mem_npUnique.mp hx)⟩

lemma classify_segments_length (boundaries : List ℚ) (sr len_y : ℕ)
    (rmsMean : ℤ → ℤ → ℚ) (chromaOr : ℕ → List ℚ) :
    (classify_segments boundaries sr len_y rmsMean chromaOr).length
      = boundaries.length - 1 := by
  rw [classify_segments]
  by_cases h : boundaries.length - 1 = 0
  · rw [if_pos h, h]
    rfl
  · rw [if_neg h]
    simp only [List.length_map, List.length_range]

lemma getD_map_range {α : Type} [Inhabited α] (n : ℕ) (f : ℕ → α) {i : ℕ}
    (hi : i < n) : ((List.range n).map f).getD i default = f i := by
  rw [List.getD_eq_getElem?_getD, List.getElem?_eq_getElem
    (by rw [List.length_map, List.length_range]; exact hi), Option.getD_some,
    List.getElem_map, List.getElem_range]

lemma classify_segments_start (boundaries : List ℚ) (sr len_y : ℕ)
    (rmsMean : ℤ → ℤ → ℚ) (chromaOr : ℕ → List ℚ) {i : ℕ}
    (hi : i + 1 < boundaries.length) :
    ((classify_segments boundaries sr len_y rmsMean chromaOr).getD i
      default).start_time = boundaries.getD i 0 := by
  have h : ¬ boundaries.length - 1 = 0 := by omega
  simp only [classify_segments]
  rw [if_neg h, getD_map_range _ _ (by omega : i < boundaries.length - 1)]

lemma classify_segments_end (boundaries : List ℚ) (sr len_y : ℕ)
    (rmsMean : ℤ → ℤ → ℚ) (chromaOr : ℕ → List ℚ) {i : ℕ}
    (hi : i + 1 < boundaries.length) :
    ((classify_segments boundaries sr len_y rmsMean chromaOr).getD i
      default).end_time = boundaries.getD (i + 1) 0 := by
  have h : ¬ boundaries.length - 1 = 0 := by omega
  simp only [classify_segments]
  rw [if_neg h, getD_map_range _ _ (by omega : i < boundaries.length - 1)]

/-- Claim C8: whenever duration < 30 s or fewer than 4 beats arrive,
`extract_structure` returns (without raising) exactly one segment of type
"intro" with startTime 0, endTime = duration, confidence 0.5 and
repetitionGroup 0. -/
theorem extract_structure_short_circuit (duration : ℚ) (nBeats : ℕ)
    (raw : List ℚ) (sr len_y : ℕ) (rmsMean : ℤ → ℤ → ℚ)
    (chromaOr : ℕ → List ℚ) (h : duration < 30 ∨ nBeats < 4) :
    extract_structure_segments duration nBeats raw sr len_y rmsMean chromaOr =
      [{ section_type := "intro", start_time := 0, end_time := duration,
         confidence := 1/2, label := "intro_1", energy_profile := 1,
         repetition_group := 0 }] := by
  rw [extract_structure_segments, if_pos h]
  rfl

/-- Claim C8 witness: a 10-second clip with 2 beats yields the single
whole-track intro segment. -/
theorem extract_structure_short_circuit_witness :
    extract_structure_segments 10 2 [0, 5] 1000 10000 (fun _ _ => 1)
      (fun _ => []) =
      [{ section_type := "intro", start_time := 0, end_time := 10,
         confidence := 1/2, label := "intro_1", energy_profile := 1,
         repetition_group := 0 }] :=
  extract_structure_short_circuit 10 2 [0, 5] 1000 10000 (fun _ _ => 1)
    (fun _ => []) (Or.inl (by norm_num))

/-- Claim C5 (amended): for every input of positive duration whose raw
boundary times are a nonempty list inside [0, duration] (true of every
in-source detection path), the segments returned by `extract_structure`
partition [0, duration] contiguously and exhaustively: first start 0, each
end equal to the next start, last end = duration, and start < end
throughout. The positivity hypothesis is forced by the zero-duration
counterexample below. -/
theorem extract_structure_partition (duration : ℚ) (nBeats : ℕ)
    (raw : List ℚ) (sr len_y : ℕ) (rmsMean : ℤ → ℤ → ℚ)
    (chromaOr : ℕ → List ℚ) (hdur : 0 < duration) (hraw : raw ≠ [])
    (hmem : ∀ t ∈ raw, 0 ≤ t ∧ t ≤ duration) :
    (extract_structure_segments duration nBeats raw sr len_y rmsMean chromaOr ≠ [])
    ∧ ((extract_structure_segments duration nBeats raw sr len_y rmsMean
        chromaOr).getD 0 default).start_time = 0
    ∧ ((extract_structure_segments duration nBeats raw sr len_y rmsMean
        chromaOr).getD ((extract_structure_segments duration nBeats raw sr len_y
          rmsMean chromaOr).length - 1) default).end_time = duration
    ∧ (∀ i, i + 1 < (extract_structure_segments duration nBeats raw sr len_y
          rmsMean chromaOr).length →
        ((extract_structure_segments duration nBeats raw sr len_y rmsMean
          chromaOr).getD i default).end_time =
        ((extract_structure_segments duration nBeats raw sr len_y rmsMean
          chromaOr).getD (i + 1) default).start_time)
    ∧ (∀ s ∈ extract_structure_segments duration nBeats raw sr len_y rmsMean
        chromaOr, s.start_time < s.end_time) := by
  by_cases hshort : duration < 30 ∨ nBeats < 4
  · rw [extract_structure_short_circuit duration nBeats raw sr len_y rmsMean
      chromaOr hshort]
    refine ⟨by simp, rfl, rfl, ?_, ?_⟩
    · intro i hi
      simp only [List.length_singleton] at hi
      omega
    · intro s hs
      rw [List.mem_singleton] at hs
      subst hs
      exact hdur
  · have hdur30 : 30 ≤ duration := by
      push_neg at hshort
      exact hshort.1
    have hmain : extract_structure_segments duration nBeats raw sr len_y
        rmsMean chromaOr =
        classify_segments (fixBoundaries raw duration) sr len_y rmsMean
          chromaOr := by
      rw [extract_structure_segments, if_neg hshort]
    obtain ⟨hu_pair, hu_zero, hu_dur, hu_bound⟩ :=
      fixBoundaries_spec hraw hmem hdur30
    obtain ⟨hu_len, hu_head, hu_last⟩ :=
      sorted_head_last hu_pair hu_zero hu_dur hu_bound (by linarith)
    have hseg_len : (classify_segments (fixBoundaries raw duration) sr len_y
        rmsMean chromaOr).length = (fixBoundaries raw duration).length - 1 :=
      classify_segments_length _ _ _ _ _
    rw [hmain]
    refine ⟨?_, ?_, ?_, ?_, ?_⟩
    · intro he
      apply congrArg List.length at he
      rw [hseg_len] at he
      simp only [List.length_nil] at he
      omega
    · rw [classify_segments_start _ _ _ _ _ (by omega)]
      exact hu_head
    · rw [hseg_len, classify_segments_end _ _ _ _ _ (by omega)]
      have heq : (fixBoundaries raw duration).length - 1 - 1 + 1 =
          (fixBoundaries raw duration).length - 1 := by omega
      rw [heq]
      exact hu_last
    · intro i hi
      rw [hseg_len] at hi
      rw [classify_segments_end _ _ _ _ _ (by omega),
        classify_segments_start _ _ _ _ _ (by omega)]
    · intro s hs
      obtain ⟨i, hilen, hival⟩ := List.mem_iff_getElem.mp hs
      rw [hseg_len] at hilen
      have hgetd : (classify_segments (fixBoundaries raw duration) sr len_y
          rmsMean chromaOr).getD i default = s := by
        rw [List.getD_eq_getElem?_getD, List.getElem?_eq_getElem
          (by rw [hseg_len]; omega), Option.getD_some]
        exact hival
      rw [← hgetd, classify_segments_start _ _ _ _ _ (by omega),
        classify_segments_end _ _ _ _ _ (by omega)]
      exact getD_lt_getD_of_pairwise hu_pair (by omega) (by omega)

/-- Claim C5 counterexample: a zero-duration waveform (empty sample
buffer) takes the short-circuit path and yields one segment with
startTime = endTime = 0, violating the startTime < endTime part of the
partition property. -/
theorem extract_structure_partition_counterexample :
    (extract_structure_segments 0 2 [0] 1000 0 (fun _ _ => 1)
      (fun _ => [])).length = 1
    ∧ ¬ (((extract_structure_segments 0 2 [0] 1000 0 (fun _ _ => 1)
        (fun _ => [])).getD 0 default).start_time <
      ((extract_structure_segments 0 2 [0] 1000 0 (fun _ _ => 1)
        (fun _ => [])).getD 0 default).end_time) := by
  rw [extract_structure_short_circuit 0 2 [0] 1000 0 (fun _ _ => 1)
    (fun _ => []) (Or.inl (by norm_num))]
  exact ⟨rfl, by norm_num⟩

/-- Claim C5 witness: a 40-second track with 8 beats and raw boundaries
[0, 10, 35], instantiating the amended partition theorem. -/
theorem extract_structure_partition_witness :
    (extract_structure_segments 40 8 [0, 10, 35] 1000 40000 (fun _ _ => 1)
      (fun _ => []) ≠ [])
    ∧ ((extract_structure_segments 40 8 [0, 10, 35] 1000 40000 (fun _ _ => 1)
        (fun _ => [])).getD 0 default).start_time = 0
    ∧ ((extract_structure_segments 40 8 [0, 10, 35] 1000 40000 (fun _ _ => 1)
        (fun _ => [])).getD ((extract_structure_segments 40 8 [0, 10, 35] 1000
          40000 (fun _ _ => 1) (fun _ => [])).length - 1) default).end_time
        = 40 := by
  obtain ⟨h1, h2, h3, _, _⟩ := extract_structure_partition 40 8 [0, 10, 35]
    1000 40000 (fun _ _ => 1) (fun _ => []) (by norm_num) (by decide)
    (by intro t ht; fin_cases ht <;> norm_num)
  exact ⟨h1, h2, h3⟩

lemma chromaV_nsq : nsq chromaV = 1 := by
  norm_num [chromaV, nsq, dot, List.zipWith_cons_cons, List.sum_cons]

lemma cosSim_chromaV : (0.85 : ℝ) < cosSim chromaV chromaV := by
  rw [cosSim_self chromaV (by rw [chromaV_nsq]; norm_num)]
  norm_num

lemma classifyGroups_three :
    classifyGroups [chromaV, chromaV, chromaV] = [0, 0, 0] := by
  simp [classifyGroups, groupOuter, groupInner, List.range', chromaV_nsq,
    cosSim_chromaV]

lemma segChromas_three :
    segChromas [0, 10, 20, 30] 1000 30000 (fun _ => chromaV)
      = [chromaV, chromaV, chromaV] := by
  norm_num [segChromas, pyInt, List.range_succ]

lemma segEnergies_three :
    segEnergies [0, 10, 20, 30] 1000 30000 (fun _ _ => 1) = [1, 1, 1] := by
  norm_num [segEnergies, compute_segment_energy, pyInt, List.range_succ]

/-- Claim C1 (code bug): at a concrete input whose middle segment has a
repetition group of size >= 2 and normalized energy 1 > 0.8, the source's
branch order (chorus before drop) makes `classify_segments` label it
"chorus", never "drop" — the drop branch is unreachable because
e_norm > 0.8 already satisfies the chorus test e_norm > 0.65. -/
theorem classify_segments_chorus_shadows_drop :
    2 ≤ ((classify_segments [0, 10, 20, 30] 1000 30000 (fun _ _ => 1)
        (fun _ => chromaV)).map Segment.repetition_group).count
      (((classify_segments [0, 10, 20, 30] 1000 30000 (fun _ _ => 1)
        (fun _ => chromaV)).getD 1 default).repetition_group)
    ∧ (4/5 : ℚ) < ((classify_segments [0, 10, 20, 30] 1000 30000 (fun _ _ => 1)
        (fun _ => chromaV)).getD 1 default).energy_profile
    ∧ ((classify_segments [0, 10, 20, 30] 1000 30000 (fun _ _ => 1)
        (fun _ => chromaV)).getD 1 default).section_type = "chorus" := by
  have hgroups : classifyGroups (segChromas [0, 10, 20, 30] 1000 30000
      (fun _ => chromaV)) = [0, 0, 0] := by
    rw [segChromas_three]
    exact classifyGroups_three
  simp only [classify_segments, segEnergies_three, hgroups]
  norm_num [List.range_succ, pyRound, roundHalfEven]

/-- Claim C4 counterexample: on the RMS series [1,1,1,0.1,1,1,1] with
1-second windows, `detect_drops` emits no marker at all, so in particular
no drop marker with dip at index 3 and spike at index 4. -/
theorem detect_drops_scenario_counterexample :
    detect_drops_core [1, 1, 1, 1/10, 1, 1, 1] [0, 1, 2, 3, 4, 5, 6] = [] := by
  norm_num [detect_drops_core, List.range', List.sum_cons, List.find?]

/-- Claim C4 (amended): for the series [1,1,1,0.1,1,1,1] the mean is 61/70,
index 3 is a dip (0.1 < 0.3 x mean) but neither following window exceeds
1.5 x mean (1 < 183/140), so `detect_drops` emits no marker. -/
theorem detect_drops_scenario_amended :
    ([(1 : ℚ), 1, 1, 1/10, 1, 1, 1].sum / 7 = 61/70)
    ∧ ((1 : ℚ)/10 < 3/10 * (61/70))
    ∧ ¬ ((3/2 : ℚ) * (61/70) < 1)
    ∧ detect_drops_core [1, 1, 1, 1/10, 1, 1, 1] [0, 1, 2, 3, 4, 5, 6] = [] := by
  refine ⟨by norm_num, by norm_num, by norm_num, ?_⟩
  norm_num [detect_drops_core, List.range', List.sum_cons, List.find?]

lemma dedupByKey_sublist :
    ∀ (l : List LoopCandidate) (seen : List (ℤ × ℕ)),
      (dedupByKey l seen).Sublist l
  | [], _ => by rw [dedupByKey]
  | c :: rest, seen => by
      rw [dedupByKey]
      by_cases h : c.key ∈ seen
      · rw [if_pos h]
        exact (dedupByKey_sublist rest seen).cons c
      · rw [if_neg h]
        exact (dedupByKey_sublist rest (c.key :: seen)).cons₂ c

lemma dedupByKey_key_not_seen :
    ∀ (l : List LoopCandidate) (seen : List (ℤ × ℕ)) (c : LoopCandidate),
      c ∈ dedupByKey l seen → c.key ∉ seen
  | [], _, c => by
      rw [dedupByKey]
      intro h
      exact absurd h (List.not_mem_nil c)
  | x :: rest, seen, c => by
      rw [dedupByKey]
      by_cases h : x.key ∈ seen
      · rw [if_pos h]
        exact dedupByKey_key_not_seen rest seen c
      · rw [if_neg h]
        intro hc
        rcases List.mem_cons.mp hc with hcx | hcr
        · subst hcx
          exact h
        · intro hcs
          exact dedupByKey_key_not_seen rest (x.key :: seen) c hcr
            (List.mem_cons_of_mem _ hcs)

lemma dedupByKey_keys_nodup :
    ∀ (l : List LoopCandidate) (seen : List (ℤ × ℕ)),
      ((dedupByKey l seen).map LoopCandidate.key).Nodup
  | [], _ => by
      rw [dedupByKey]
      exact List.nodup_nil
  | x :: rest, seen => by
      rw [dedupByKey]
      by_cases h : x.key ∈ seen
      · rw [if_pos h]
        exact dedupByKey_keys_nodup rest seen
      · rw [if_neg h]
        rw [List.map_cons, List.nodup_cons]
        constructor
        · intro hmem
          obtain ⟨c, hc, hkey⟩ := List.mem_map.mp hmem
          have := dedupByKey_key_not_seen rest (x.key :: seen) c hc
          rw [hkey] at this
          exact this (List.mem_cons_self _ _)
        · exact dedupByKey_keys_nodup rest (x.key :: seen)

lemma dedupByKey_max_score :
    ∀ (l : List LoopCandidate) (seen : List (ℤ × ℕ)),
      l.Pairwise (fun a b => b.quality_score ≤ a.quality_score) →
      ∀ c ∈ dedupByKey l seen, ∀ d ∈ l, d.key = c.key →
        d.quality_score ≤ c.quality_score
  | [], _, _, c => by
      rw [dedupByKey]
      intro h
      exact absurd h (List.not_mem_nil c)
  | x :: rest, seen, hpair, c => by
      rw [dedupByKey]
      have hpx := (List.pairwise_cons.mp hpair).1
      have hpr := (List.pairwise_cons.mp hpair).2
      by_cases h : x.key ∈ seen
      · rw [if_pos h]
        intro hc d hd hkey
        rcases List.mem_cons.mp hd with hdx | hdr
        · subst hdx
          exfalso
          have := dedupByKey_key_not_seen rest seen c hc
          rw [← hkey] at this
          exact this h
        · exact dedupByKey_max_score rest seen hpr c hc d hdr hkey
      · rw [if_neg h]
        intro hc d hd hkey
        rcases List.mem_cons.mp hc with hcx | hcr
        · subst hcx
          rcases List.mem_cons.mp hd with hdx | hdr
          · subst hdx
            exact le_refl _
          · exact hpx d hdr
        · rcases List.mem_cons.mp hd with hdx | hdr
          · subst hdx
            exfalso
            have := dedupByKey_key_not_seen rest (d.key :: seen) c hcr
            rw [← hkey] at this
            exact this (List.mem_cons_self _ _)
          · exact dedupByKey_max_score rest (x.key :: seen) hpr c hcr d hdr hkey

lemma loopPassingSorted_pairwise (cands : List LoopCandidate) :
    (loopPassingSorted cands).Pairwise
      (fun a b => b.quality_score ≤ a.quality_score) := by
  have h := @List.sorted_mergeSort LoopCandidate scoreDesc
    (fun a b c hab hbc => by
      simp only [scoreDesc, decide_eq_true_eq] at *
      exact le_trans hbc hab)
    (fun a b => by
      simp only [scoreDesc, Bool.or_eq_true, decide_eq_true_eq]
      exact le_total _ _)
    (cands.filter fun c => decide ((3/5 : ℚ) ≤ c.quality_score))
  rw [loopPassingSorted]
  exact h.imp (fun hab => by
    simpa only [scoreDesc, decide_eq_true_eq] using hab)

lemma loopPassingSorted_mem_score {cands : List LoopCandidate}
    {c : LoopCandidate} (hc : c ∈ loopPassingSorted cands) :
    (3/5 : ℚ) ≤ c.quality_score := by
  rw [loopPassingSorted, List.mem_mergeSort, List.mem_filter] at hc
  exact of_decide_eq_true hc.2

lemma mem_loopPassingSorted {cands : List LoopCandidate} {d : LoopCandidate}
    (hd : d ∈ cands) (hscore : (3/5 : ℚ) ≤ d.quality_score) :
    d ∈ loopPassingSorted cands := by
  rw [loopPassingSorted, List.mem_mergeSort, List.mem_filter]
  exact ⟨hd, decide_eq_true hscore⟩

/-- Claim C6: the loop-point result keeps only candidates scoring >= 0.6,
"all" is sorted descending by score with no duplicate (startMs, bars)
keys and only the highest-scoring candidate per key surviving, and
"recommended" is exactly the first min(5, |all|) entries of "all", every
one flagged recommended = true. -/
theorem extract_loop_points_spec (bar_times : List ℚ)
    (segments : List Segment) (beats_per_bar : ℕ) (quality : ℚ → ℚ → ℚ) :
    (∀ c ∈ (extract_loop_points bar_times segments beats_per_bar quality).2,
        (3/5 : ℚ) ≤ c.quality_score)
    ∧ ((extract_loop_points bar_times segments beats_per_bar quality).2.Pairwise
        fun a b => b.quality_score ≤ a.quality_score)
    ∧ (((extract_loop_points bar_times segments beats_per_bar quality).2.map
        LoopCandidate.key).Nodup)
    ∧ ((extract_loop_points bar_times segments beats_per_bar quality).1
        = (extract_loop_points bar_times segments beats_per_bar quality).2.take 5)
    ∧ (∀ c ∈ (extract_loop_points bar_times segments beats_per_bar quality).1,
        c.recommended = true)
    ∧ (∀ c ∈ (extract_loop_points bar_times segments beats_per_bar quality).2,
        ∀ d ∈ gen_loop_candidates bar_times segments beats_per_bar quality,
          (3/5 : ℚ) ≤ d.quality_score → d.key = c.key →
            d.quality_score ≤ c.quality_score) := by
  by_cases hlen : bar_times.length < 2
  · simp only [extract_loop_points, if_pos hlen]
    simp
  · simp only [extract_loop_points, if_neg hlen]
    set G := gen_loop_candidates bar_times segments beats_per_bar quality
      with hG
    set D := dedupByKey (loopPassingSorted G) [] with hD
    have hPSsorted := loopPassingSorted_pairwise G
    have hDsub : D.Sublist (loopPassingSorted G) := dedupByKey_sublist _ []
    have hDsorted : D.Pairwise (fun a b => b.quality_score ≤ a.quality_score) :=
      hPSsorted.sublist hDsub
    have hDscore : ∀ c ∈ D, (3/5 : ℚ) ≤ c.quality_score := fun c hc =>
      loopPassingSorted_mem_score (hDsub.subset hc)
    refine ⟨?_, ?_, ?_, ?_, ?_, ?_⟩
    · intro c hc
      rcases List.mem_append.mp hc with hrec | hdrop
      · obtain ⟨c', hc', rfl⟩ := List.mem_map.mp hrec
        exact hDscore c' (List.mem_of_mem_take hc')
      · exact hDscore c (List.mem_of_mem_drop hdrop)
    · have hsplit := hDsorted
      rw [← List.take_append_drop 5 D] at hsplit
      obtain ⟨ht, hd, hcross⟩ := List.pairwise_append.mp hsplit
      rw [List.pairwise_append]
      refine ⟨List.pairwise_map.mpr ht, hd, ?_⟩
      intro a ha b hb
      obtain ⟨a', ha', rfl⟩ := List.mem_map.mp ha
      exact hcross a' ha' b hb
    · rw [List.map_append, List.map_map]
      have hcomp : (LoopCandidate.key ∘ fun c =>
          { c with recommended := true }) = LoopCandidate.key := rfl
      rw [hcomp, ← List.map_append, List.take_append_drop]
      exact dedupByKey_keys_nodup _ []
    · rw [List.take_append_eq_append_take]
      have hlen5 : ((D.take 5).map fun c =>
          { c with recommended := true }).length = min 5 D.length := by
        rw [List.length_map, List.length_take]
      have htake1 : List.take 5 ((D.take 5).map fun c =>
          { c with recommended := true }) = (D.take 5).map fun c =>
          { c with recommended := true } :=
        List.take_of_length_le (by rw [hlen5]; omega)
      rw [htake1, hlen5]
      rcases le_or_lt 5 D.length with h5 | h5
      · have h0 : 5 - min 5 D.length = 0 := by omega
        rw [h0, List.take_zero, List.append_nil]
      · have hdropnil : D.drop 5 = [] := by
          rw [List.drop_eq_nil_iff]
          omega
        rw [hdropnil, List.take_nil, List.append_nil]
    · intro c hc
      obtain ⟨c', hc', rfl⟩ := List.mem_map.mp hc
      rfl
    · intro c hc d hd hscore hkey
      have hdmem : d ∈ loopPassingSorted G := mem_loopPassingSorted hd hscore
      rcases List.mem_append.mp hc with hrec | hdrop
      · obtain ⟨c', hc', rfl⟩ := List.mem_map.mp hrec
        exact dedupByKey_max_score _ [] hPSsorted c'
          (List.mem_of_mem_take hc') d hdmem hkey
      · exact dedupByKey_max_score _ [] hPSsorted c
          (List.mem_of_mem_drop hdrop) d hdmem hkey

/-- Claim C6 witness: a two-entry bar grid with a constant-quality oracle,
instantiating the ranking theorem; the recommended list is the first five
entries of "all". -/
theorem extract_loop_points_spec_witness :
    (extract_loop_points [0, 1] [] 4 (fun _ _ => 1)).1
      = (extract_loop_points [0, 1] [] 4 (fun _ _ => 1)).2.take 5 :=
  (extract_loop_points_spec [0, 1] [] 4 (fun _ _ => 1)).2.2.2.1

/-- Claim C10: when every segment ends at or before `t` (as for a loop
start on the extrapolated final bar boundary), `find_section_for_time`
returns the last segment's label, and returns "unknown" on an empty
segment list. -/
theorem find_section_for_time_after_last (segments : List Segment)
    (slast : Segment) (t : ℚ) (hlast : segments.getLast? = some slast)
    (hord : ∀ s ∈ segments, s.end_time ≤ slast.end_time)
    (ht : slast.end_time ≤ t) :
    find_section_for_time segments t = slast.label
    ∧ ∀ u : ℚ, find_section_for_time [] u = "unknown" := by
  constructor
  · have hfind : segments.find?
        (fun s => decide (s.start_time ≤ t ∧ t < s.end_time)) = none := by
      rw [List.find?_eq_none]
      intro s hs hdec
      rw [decide_eq_true_eq] at hdec
      have h1 : s.end_time ≤ t := le_trans (hord s hs) ht
      linarith [hdec.2]
    rw [find_section_for_time, hfind, hlast]
  · intro u
    rfl

/-- Claim C10 witness: two contiguous segments and a query at the last
segment's end time. -/
theorem find_section_for_time_after_last_witness :
    find_section_for_time
      [{ section_type := "intro", start_time := 0, end_time := 10,
         confidence := 1/2, label := "intro_1", energy_profile := 1,
         repetition_group := 0 },
       { section_type := "outro", start_time := 10, end_time := 20,
         confidence := 1/2, label := "outro_2", energy_profile := 1,
         repetition_group := 1 }] 20 = "outro_2"
    ∧ find_section_for_time [] 0 = "unknown" := by
  obtain ⟨h1, h2⟩ := find_section_for_time_after_last
    [{ section_type := "intro", start_time := 0, end_time := 10,
       confidence := 1/2, label := "intro_1", energy_profile := 1,
       repetition_group := 0 },
     { section_type := "outro", start_time := 10, end_time := 20,
       confidence := 1/2, label := "outro_2", energy_profile := 1,
       repetition_group := 1 }]
    { section_type := "outro", start_time := 10, end_time := 20,
      confidence := 1/2, label := "outro_2", energy_profile := 1,
      repetition_group := 1 } 20 rfl
    (by
      intro s hs
      rcases List.mem_cons.mp hs with h | h
      · subst h
        norm_num
      · rw [List.mem_singleton] at h
        subst h
        norm_num)
    (by norm_num)
  exact ⟨h1, h2 0⟩

lemma mergeCuesAux_spec :
    ∀ (rest acc : List AutoCue),
      acc.Pairwise (fun a b => b.position_ms + 500 ≤ a.position_ms) →
      rest.Pairwise (fun a b => a.position_ms ≤ b.position_ms) →
      (∀ a ∈ acc, ∀ r ∈ rest, a.position_ms ≤ r.position_ms) →
      (mergeCuesAux acc rest).Pairwise
        (fun a b => a.position_ms + 500 ≤ b.position_ms)
  | [], acc => by
      intro hacc _ _
      rw [mergeCuesAux]
      rw [List.pairwise_reverse]
      exact hacc
  | cue :: rest, [] => by
      intro _ hrest _
      rw [mergeCuesAux]
      obtain ⟨hhead, htail⟩ := List.pairwise_cons.mp hrest
      exact mergeCuesAux_spec rest [cue] (List.pairwise_singleton _ _) htail
        (by
          intro a ha r hr
          rw [List.mem_singleton] at ha
          subst ha
          exact hhead r hr)
  | cue :: rest, last :: acc => by
      intro hacc hrest hinv
      rw [mergeCuesAux]
      obtain ⟨hhead, htail⟩ := List.pairwise_cons.mp hrest
      obtain ⟨hacch, hacct⟩ := List.pairwise_cons.mp hacc
      have hlastcue : last.position_ms ≤ cue.position_ms :=
        hinv last (List.mem_cons_self _ _) cue (List.mem_cons_self _ _)
      by_cases h500 : |cue.position_ms - last.position_ms| < 500
      · rw [if_pos h500]
        by_cases hconf : last.confidence < cue.confidence
        · rw [if_pos hconf]
          refine mergeCuesAux_spec rest (cue :: acc) ?_ htail ?_
          · rw [List.pairwise_cons]
            refine ⟨fun a ha => le_trans (hacch a ha) hlastcue, hacct⟩
          · intro a ha r hr
            rcases List.mem_cons.mp ha with h | h
            · subst h
              exact hhead r hr
            · exact hinv a (List.mem_cons_of_mem _ h) r
                (List.mem_cons_of_mem _ hr)
        · rw [if_neg hconf]
          refine mergeCuesAux_spec rest (last :: acc) hacc htail ?_
          intro a ha r hr
          exact hinv a ha r (List.mem_cons_of_mem _ hr)
      · rw [if_neg h500]
        have hgap : last.position_ms + 500 ≤ cue.position_ms := by
          rw [abs_of_nonneg (by omega)] at h500
          omega
        refine mergeCuesAux_spec rest (cue :: last :: acc) ?_ htail ?_
        · rw [List.pairwise_cons]
          constructor
          · intro a ha
            rcases List.mem_cons.mp ha with h | h
            · subst h
              exact hgap
            · exact le_trans (by linarith [hacch a h]) hgap
          · exact hacc
        · intro a ha r hr
          rcases List.mem_cons.mp ha with h | h
          · subst h
            exact hhead r hr
          · exact hinv a h r (List.mem_cons_of_mem _ hr)

/-- Claim C7: the final auto-cue list is sorted ascending by positionMs
and no two entries lie within 500 ms of each other — the greedy merge
against only the last kept cue suffices for the pairwise guarantee. -/
theorem dedupe_cues_spec (cues : List AutoCue) :
    (dedupe_cues cues).Pairwise fun a b =>
      a.position_ms ≤ b.position_ms
      ∧ ¬ |b.position_ms - a.position_ms| < 500 := by
  have hsorted := @List.sorted_mergeSort AutoCue
    (fun a b => decide (a.position_ms ≤ b.position_ms))
    (fun a b c hab hbc => by
      rw [decide_eq_true_eq] at *
      exact le_trans hab hbc)
    (fun a b => by
      simp only [Bool.or_eq_true, decide_eq_true_eq]
      exact le_total _ _)
    cues
  have hgap := mergeCuesAux_spec
    (cues.mergeSort fun a b => decide (a.position_ms ≤ b.position_ms)) []
    List.Pairwise.nil
    (hsorted.imp fun hab => by
      rw [decide_eq_true_eq] at hab
      exact hab)
    (by intro a ha; exact absurd ha (List.not_mem_nil a))
  rw [dedupe_cues]
  exact hgap.imp fun hab => by
    constructor
    · omega
    · rw [abs_of_nonneg (by omega)]
      omega

/-- Claim C2 (code bug): the auto-cue stage appends every segment cue at
position 0, not at the segment's start time in milliseconds, because it
reads dict keys the segment does not have. At a segment starting at
12.5 s the emitted position is 0, not 12500. -/
theorem cueOfSegment_position_always_zero :
    (∀ s : Segment, (cueOfSegment s).position_ms = 0)
    ∧ (cueOfSegment { section_type := "verse", start_time := 25/2,
                      end_time := 20, confidence := 7/10, label := "verse_2",
                      energy_profile := 1/2, repetition_group := 1 }).position_ms
      ≠ pyInt ((25/2 : ℚ) * 1000) := by
  have hzero : ∀ s : Segment, (cueOfSegment s).position_ms = 0 := by
    intro s
    show pyInt ((segGetNum s "start_ms").getD
      (((segGetNum s "start").getD 0) * 1000)) = 0
    have h1 : segGetNum s "start_ms" = none := rfl
    have h2 : segGetNum s "start" = none := rfl
    rw [h1, h2]
    norm_num [pyInt]
  refine ⟨hzero, ?_⟩
  rw [hzero]
  norm_num [pyInt]

/-- Claim C9: each loop-quality sub-score is total on degenerate input:
a boundary window under 1/8 second of samples gives sub-score 0; with
full windows, a zero chroma norm gives similarity 0, a zero maximum RMS
gives energy-match 1.0 and a zero maximum centroid gives centroid-match
1.0 — no division by zero is ever performed. -/
theorem loop_subscores_total (sr len_y : ℕ) (chromaMean : ℤ → ℤ → List ℚ)
    (rmsMean scMean : ℤ → ℤ → ℚ) (t1 t2 window : ℚ) :
    (shortPair sr len_y t1 t2 window →
      chroma_similarity sr len_y chromaMean t1 t2 window = 0
      ∧ energy_match sr len_y rmsMean t1 t2 window = 0
      ∧ spectral_match sr len_y scMean t1 t2 window = 0)
    ∧ (¬ shortPair sr len_y t1 t2 window →
      (nsq (chromaMean (simWindow sr len_y t1 window).1
          (simWindow sr len_y t1 window).2) = 0
        ∨ nsq (chromaMean (simWindow sr len_y t2 window).1
          (simWindow sr len_y t2 window).2) = 0) →
      chroma_similarity sr len_y chromaMean t1 t2 window = 0)
    ∧ (¬ shortPair sr len_y t1 t2 window →
      max (rmsMean (simWindow sr len_y t1 window).1
          (simWindow sr len_y t1 window).2)
        (rmsMean (simWindow sr len_y t2 window).1
          (simWindow sr len_y t2 window).2) = 0 →
      energy_match sr len_y rmsMean t1 t2 window = 1)
    ∧ (¬ shortPair sr len_y t1 t2 window →
      max (scMean (simWindow sr len_y t1 window).1
          (simWindow sr len_y t1 window).2)
        (scMean (simWindow sr len_y t2 window).1
          (simWindow sr len_y t2 window).2) = 0 →
      spectral_match sr len_y scMean t1 t2 window = 1) := by
  refine ⟨?_, ?_, ?_, ?_⟩
  · intro hshort
    refine ⟨?_, ?_, ?_⟩
    · rw [chroma_similarity, if_pos hshort]
    · rw [energy_match, if_pos hshort]
    · rw [spectral_match, if_pos hshort]
  · intro hshort hzero
    rw [chroma_similarity, if_neg hshort]
    simp only
    rw [if_pos hzero]
  · intro hshort hzero
    rw [energy_match, if_neg hshort]
    simp only
    rw [if_pos hzero]
  · intro hshort hzero
    rw [spectral_match, if_neg hshort]
    simp only
    rw [if_pos hzero]

/-- Claim C9 witness: with sr 8000 and zero-valued oracles, the windows at
t = 1 s and t = 2 s are full, the chroma similarity is 0 and both the
energy and centroid matches are the fallback 1.0; shrinking the buffer to
500 samples makes the window short and all three sub-scores 0. -/
theorem loop_subscores_total_witness :
    chroma_similarity 8000 100000 (fun _ _ => List.replicate 12 0) 1 2 (1/2) = 0
    ∧ energy_match 8000 100000 (fun _ _ => 0) 1 2 (1/2) = 1
    ∧ spectral_match 8000 100000 (fun _ _ => 0) 1 2 (1/2) = 1
    ∧ energy_match 8000 500 (fun _ _ => 0) 1 2 (1/2) = 0 := by
  have hwin : simWindow 8000 100000 (1 : ℚ) (1/2) = (6000, 10000) := by
    norm_num [simWindow, pyInt]
  have hwin2 : simWindow 8000 100000 (2 : ℚ) (1/2) = (14000, 18000) := by
    norm_num [simWindow, pyInt]
  have hnotshort : ¬ shortPair 8000 100000 (1 : ℚ) 2 (1/2) := by
    rw [shortPair, hwin, hwin2]
    norm_num
  have hshort : shortPair 8000 500 (1 : ℚ) 2 (1/2) := by
    have hw500 : simWindow 8000 500 (1 : ℚ) (1/2) = (6000, 500) := by
      norm_num [simWindow, pyInt]
    rw [shortPair, hw500]
    norm_num
  obtain ⟨hs1, hs2, hs3, hs4⟩ := loop_subscores_total 8000 100000
    (fun _ _ => List.replicate 12 0) (fun _ _ => 0) (fun _ _ => 0) 1 2 (1/2)
  obtain ⟨hs1b, _, _, _⟩ := loop_subscores_total 8000 500
    (fun _ _ => List.replicate 12 0) (fun _ _ => 0) (fun _ _ => 0) 1 2 (1/2)
  refine ⟨?_, ?_, ?_, ?_⟩
  · exact hs2 hnotshort (Or.inl (by norm_num [nsq, dot]))
  · exact hs3 hnotshort (by norm_num)
  · exact hs4 hnotshort (by norm_num)
  · exact (hs1b hshort).2.1
